import Mathlib

/-!
Shallow embedding of the go-hash repository (package hash: hash.go, and the
argon2 implementation file) in Lean 4, together with theorems settling the
frozen claims about it.

Modelling conventions:
* Go byte slices are `List Nat` with each element intended to lie below 256
  (stated as a hypothesis where a theorem needs it).
* Go strings are `List Char`; all strings handled by the engine are ASCII, so
  the Go conversion `[]byte(s)` is modelled as `List.map Char.toNat`.
* Go functions that can return an error are modelled with `Outcome`; a Go
  runtime panic (out-of-range index, nil-interface method call) is the
  distinguished `Outcome.panic` result.
* The external primitives (crypto/sha256's compression over byte streams and
  golang.org/x/crypto/argon2's Key/IDKey derivations) are not code of this
  repository; they enter as the fields of a `Prims` value, over which the
  theorems quantify.  HMAC itself (crypto/hmac) is modelled structurally,
  keyed exactly as the repository keys it.
* `strings.Split(s, "$")` and `strings.Split(parameters, ":")` are modelled
  with `List.splitOn` on a single character, which agrees with Go for the
  one-character separators the repository uses.
-/

/-- Error values of the repository: errBadHashFormat and errUnknownHashImpl
from hash.go, errBadParameters / errUnknownHashMod / errBadHashSize from the
argon2 file, and the error a failed base64 decode of the stored tag
propagates out of VerifyHash unchanged (a base64.CorruptInputError). -/
inductive HashErr where
  | badFormat
  | unknownImpl
  | badParameters
  | unknownMode
  | badHashSize
  | corruptInput
  deriving DecidableEq, Repr

/-- Result of a Go call: a value, a returned error, or a runtime panic. -/
inductive Outcome (α : Type) where
  | ok : α → Outcome α
  | error : HashErr → Outcome α
  | panic : Outcome α
  deriving DecidableEq, Repr

/-- Value of a successful outcome, with a default otherwise. -/
def Outcome.getOk {α : Type} (d : α) : Outcome α → α
  | .ok a => a
  | _ => d

/-- The standard base64 alphabet used by Go's encoding/base64 StdEncoding. -/
def b64Alphabet : List Char :=
  "ABCDEFGHIJKLMNOPQRSTUVWXYZabcdefghijklmnopqrstuvwxyz0123456789+/".toList

/-- Character for a six-bit value (encoding/base64 table lookup). -/
def sextetChar (n : Nat) : Char := b64Alphabet.getD n 'A'

/-- Position of a character in the base64 alphabet, if any. -/
def sextetIndex (c : Char) : List Char → Option Nat
  | [] => none
  | d :: rest => if d = c then some 0 else (sextetIndex c rest).map (· + 1)

/-- Six-bit value of a base64 character (decoding table lookup). -/
def charSextet (c : Char) : Option Nat := sextetIndex c b64Alphabet

/-- Model of base64.StdEncoding.EncodeToString: emit four characters per
three input bytes, padding the final group with one or two characters. -/
def b64EncodeChunks : List Nat → List Char
  | [] => []
  | [a] => [sextetChar (a / 4), sextetChar (a % 4 * 16), '=', '=']
  | [a, b] =>
      [sextetChar (a / 4), sextetChar (a % 4 * 16 + b / 16),
       sextetChar (b % 16 * 4), '=']
  | a :: b :: c :: rest =>
      sextetChar (a / 4) :: sextetChar (a % 4 * 16 + b / 16) ::
      sextetChar (b % 16 * 4 + c / 64) :: sextetChar (c % 64) ::
      b64EncodeChunks rest

/-- Model of base64.StdEncoding.DecodeString: consume four characters per
group, accepting padding only at the very end, failing on characters outside
the alphabet or on a length that is not a multiple of four. -/
def b64DecodeChunks : List Char → Option (List Nat)
  | [] => some []
  | c1 :: c2 :: c3 :: c4 :: rest =>
      match charSextet c1, charSextet c2 with
      | some a, some b =>
          if c3 = '=' then
            if c4 = '=' ∧ rest = [] then some [a * 4 + b / 16] else none
          else
            match charSextet c3 with
            | some c =>
                if c4 = '=' then
                  if rest = [] then
                    some [a * 4 + b / 16, b % 16 * 16 + c / 4]
                  else none
                else
                  match charSextet c4 with
                  | some d =>
                      (b64DecodeChunks rest).map
                        (fun t => (a * 4 + b / 16) :: (b % 16 * 16 + c / 4) ::
                                  (c % 4 * 64 + d) :: t)
                  | none => none
            | none => none
      | _, _ => none
  | _ => none

set_option maxRecDepth 4000 in
theorem charSextet_sextetChar_of_mem :
    ∀ n ∈ List.range 64, charSextet (sextetChar n) = some n := by decide

theorem charSextet_sextetChar {n : Nat} (h : n < 64) :
    charSextet (sextetChar n) = some n :=
  charSextet_sextetChar_of_mem n (List.mem_range.mpr h)

theorem sextetChar_mem (n : Nat) : sextetChar n ∈ b64Alphabet := by
  by_cases h : n < b64Alphabet.length
  · simp only [sextetChar, List.getD_eq_getElem?_getD, List.getElem?_eq_getElem h,
      Option.getD_some]
    exact List.getElem_mem h
  · have : b64Alphabet.length ≤ n := Nat.le_of_not_lt h
    simp only [sextetChar, List.getD_eq_getElem?_getD, List.getElem?_eq_none this]
    decide

theorem b64Alphabet_no_pad : ∀ c ∈ b64Alphabet, c ≠ '=' := by decide

theorem b64Alphabet_no_dollar : ∀ c ∈ b64Alphabet, c ≠ '$' := by decide

theorem sextetChar_ne_pad (n : Nat) : sextetChar n ≠ '=' :=
  b64Alphabet_no_pad _ (sextetChar_mem n)

theorem sextetChar_ne_dollar (n : Nat) : sextetChar n ≠ '$' :=
  b64Alphabet_no_dollar _ (sextetChar_mem n)

theorem b64Encode_no_dollar : ∀ bs, '$' ∉ b64EncodeChunks bs := by
  intro bs
  induction bs using b64EncodeChunks.induct with
  | case1 => simp [b64EncodeChunks]
  | case2 a =>
      simp only [b64EncodeChunks, List.mem_cons, List.not_mem_nil]
      push_neg
      exact ⟨(sextetChar_ne_dollar _).symm, (sextetChar_ne_dollar _).symm,
        by decide, by decide, not_false⟩
  | case3 a b =>
      simp only [b64EncodeChunks, List.mem_cons, List.not_mem_nil]
      push_neg
      exact ⟨(sextetChar_ne_dollar _).symm, (sextetChar_ne_dollar _).symm,
        (sextetChar_ne_dollar _).symm, by decide, not_false⟩
  | case4 a b c rest ih =>
      simp only [b64EncodeChunks, List.mem_cons]
      push_neg
      exact ⟨(sextetChar_ne_dollar _).symm, (sextetChar_ne_dollar _).symm,
        (sextetChar_ne_dollar _).symm, (sextetChar_ne_dollar _).symm, ih⟩

theorem b64_roundtrip :
    ∀ bs : List Nat, (∀ x ∈ bs, x < 256) →
      b64DecodeChunks (b64EncodeChunks bs) = some bs := by
  intro bs
  induction bs using b64EncodeChunks.induct with
  | case1 => intro _; rfl
  | case2 a =>
      intro h
      have ha : a < 256 := h a (by simp)
      simp only [b64EncodeChunks, b64DecodeChunks,
        charSextet_sextetChar (show a / 4 < 64 by omega),
        charSextet_sextetChar (show a % 4 * 16 < 64 by omega)]
      rw [if_pos trivial, if_pos (⟨trivial, trivial⟩ : True ∧ True)]
      have h1 : a / 4 * 4 + a % 4 * 16 / 16 = a := by omega
      rw [h1]
  | case3 a b =>
      intro h
      have ha : a < 256 := h a (by simp)
      have hb : b < 256 := h b (by simp)
      simp only [b64EncodeChunks, b64DecodeChunks,
        charSextet_sextetChar (show a / 4 < 64 by omega),
        charSextet_sextetChar (show a % 4 * 16 + b / 16 < 64 by omega),
        charSextet_sextetChar (show b % 16 * 4 < 64 by omega),
        if_neg (sextetChar_ne_pad (b % 16 * 4))]
      rw [if_pos trivial, if_pos trivial]
      have h1 : a / 4 * 4 + (a % 4 * 16 + b / 16) / 16 = a := by omega
      have h2 : (a % 4 * 16 + b / 16) % 16 * 16 + b % 16 * 4 / 4 = b := by omega
      rw [h1, h2]
  | case4 a b c rest ih =>
      intro h
      have ha : a < 256 := h a (by simp)
      have hb : b < 256 := h b (by simp)
      have hc : c < 256 := h c (by simp)
      have hrest : ∀ x ∈ rest, x < 256 := fun x hx => h x (by simp [hx])
      simp only [b64EncodeChunks, b64DecodeChunks,
        charSextet_sextetChar (show a / 4 < 64 by omega),
        charSextet_sextetChar (show a % 4 * 16 + b / 16 < 64 by omega),
        charSextet_sextetChar (show b % 16 * 4 + c / 64 < 64 by omega),
        charSextet_sextetChar (show c % 64 < 64 by omega),
        if_neg (sextetChar_ne_pad (b % 16 * 4 + c / 64)),
        if_neg (sextetChar_ne_pad (c % 64)), ih hrest, Option.map_some]
      have h1 : a / 4 * 4 + (a % 4 * 16 + b / 16) / 16 = a := by omega
      have h2 : (a % 4 * 16 + b / 16) % 16 * 16 + (b % 16 * 4 + c / 64) / 4 = b := by
        omega
      have h3 : (b % 16 * 4 + c / 64) % 4 * 64 + c % 64 = c := by omega
      rw [h1, h2, h3]
      rfl

/-- External primitives the repository links against but does not define:
the SHA-256 digest over a byte stream (crypto/sha256), the two argon2 key
derivations (golang.org/x/crypto/argon2 Key and IDKey, taking password, salt,
time, memory, threads, keyLen), and runtime.NumCPU.  All theorems quantify
over them; concrete instances are used only to witness satisfiability. -/
structure Prims where
  sha256 : List Nat → List Nat
  argonKey : List Nat → List Nat → Nat → Nat → Nat → Nat → List Nat
  argonIDKey : List Nat → List Nat → Nat → Nat → Nat → Nat → List Nat
  numCPU : Nat

/-- Model of the package-level var argonThreads = uint8(runtime.NumCPU() / 2). -/
def argonThreads (P : Prims) : Nat := P.numCPU / 2 % 256

/-- Constant DefaultAlgo = "argon2" from hash.go. -/
def DefaultAlgo : List Char := "argon2".toList

/-- Constant MinHashParts = 5 from hash.go. -/
def MinHashParts : Nat := 5

/-- Constant SaltSize = 10 from hash.go. -/
def SaltSize : Nat := 10

/-- Constant Separator = "$" from hash.go (a one-character string). -/
def Separator : Char := '$'

/-- Constant ParameterSeparator = ":" from hash.go (a one-character string). -/
def ParameterSeparator : Char := ':'

/-- Constant hashID = "argon2" from the argon2 file. -/
def hashID : List Char := "argon2".toList

/-- Constant argonNumParameters = 3. -/
def argonNumParameters : Nat := 3

/-- Constant argonDefaultMemoryPasses = 4. -/
def argonDefaultMemoryPasses : Nat := 4

/-- Constant argonDefaultMemorySize = 64 * 1024. -/
def argonDefaultMemorySize : Nat := 64 * 1024

/-- Constant argonDefaultHashSize = 32. -/
def argonDefaultHashSize : Nat := 32

/-- Constant argonDefaultMode = "id". -/
def argonDefaultMode : List Char := "id".toList

/-- Var argonModi = []string{"i", "id"}. -/
def argonModi : List (List Char) := ["i".toList, "id".toList]

/-- The struct argon2 from the argon2 file: MemoryPasses and MemorySize are
uint32, Mode a string, HashSize a uint32. -/
structure Argon2 where
  MemoryPasses : Nat
  MemorySize : Nat
  Mode : List Char
  HashSize : Nat
  deriving DecidableEq, Repr

/-- The instance the argon2 file's init function registers under hashID. -/
def defaultArgon2 : Argon2 :=
  { MemoryPasses := argonDefaultMemoryPasses
    MemorySize := argonDefaultMemorySize
    Mode := argonDefaultMode
    HashSize := argonDefaultHashSize }

/-- The process-wide registry map after initialization: it holds exactly the
one entry the argon2 init function writes.  Lookup of a missing key yields
none (Go: the interface zero value nil). -/
def HashImplementations (id_ : List Char) : Option Argon2 :=
  if id_ = hashID then some defaultArgon2 else none

/-- Decimal digit characters of a natural number, as fmt's %d verb prints
an unsigned value. -/
def natDigits (n : Nat) : List Char := Nat.toDigits 10 n

/-- Go []byte(s) for the ASCII strings the engine handles. -/
def strBytes (s : List Char) : List Nat := s.map Char.toNat

/-- Method (uc *argon2) encodedString: fmt.Sprintf with mode, MemoryPasses,
MemorySize separated by colons. -/
def encodedString (uc : Argon2) : List Char :=
  uc.Mode ++ (':' :: natDigits uc.MemoryPasses) ++ (':' :: natDigits uc.MemorySize)

/-- Method (uc *argon2) Hash: switch on uc.Mode selecting argon2.Key for "i",
argon2.IDKey for "id", otherwise errUnknownHashMod; on success returns the
encoded parameter string and the derived key. -/
def argon2Hash (P : Prims) (uc : Argon2) (password salt : List Nat) :
    Outcome (List Char × List Nat) :=
  if uc.Mode = "i".toList then
    .ok (encodedString uc,
      P.argonKey password salt uc.MemoryPasses uc.MemorySize (argonThreads P) uc.HashSize)
  else if uc.Mode = "id".toList then
    .ok (encodedString uc,
      P.argonIDKey password salt uc.MemoryPasses uc.MemorySize (argonThreads P) uc.HashSize)
  else .error .unknownMode

/-- Helper inStrArray from the argon2 file. -/
def inStrArray (val : List Char) : List (List Char) → Bool
  | [] => false
  | item :: rest => if item = val then true else inStrArray val rest

/-- Digit-accumulating loop of strconv.ParseInt for base 10. -/
def decDigitsAux (acc : Nat) : List Char → Option Nat
  | [] => some acc
  | c :: rest =>
      if '0' ≤ c ∧ c ≤ '9' then decDigitsAux (acc * 10 + (c.toNat - 48)) rest
      else none

/-- Model of strconv.ParseInt(s, 10, bitSize): an optional sign followed by
at least one decimal digit, with the value required to fit the signed range
of the given bit size; any violation is an error (none). -/
def goParseInt (s : List Char) (bits : Nat) : Option Int :=
  match s with
  | [] => none
  | '+' :: rest =>
      match rest with
      | [] => none
      | _ =>
          (decDigitsAux 0 rest).bind fun n =>
            if n ≤ 2 ^ (bits - 1) - 1 then some (n : Int) else none
  | '-' :: rest =>
      match rest with
      | [] => none
      | _ =>
          (decDigitsAux 0 rest).bind fun n =>
            if n ≤ 2 ^ (bits - 1) then some (-(n : Int)) else none
  | _ =>
      (decDigitsAux 0 s).bind fun n =>
        if n ≤ 2 ^ (bits - 1) - 1 then some (n : Int) else none

/-- Go conversion uint32(x) of a signed value: two's-complement wrap. -/
def toUint32 (i : Int) : Nat := (i % (2 : Int) ^ 32).toNat

/-- Method (uc *argon2) configureArgon, with the receiver's post-state made
explicit as the first component (Go: nc := *uc copies, then only nc is
written, so the receiver is returned unchanged).  The second component is
the (hash, error) pair the method returns. -/
def configureArgon (uc : Argon2) (mode : List Char) (hashSize passes memory : Nat) :
    Argon2 × Outcome Argon2 :=
  if !inStrArray mode argonModi || hashSize == 0 || passes == 0 || memory == 0 then
    (uc, .error .badParameters)
  else
    (uc, .ok { uc with Mode := mode, HashSize := hashSize,
                       MemoryPasses := passes, MemorySize := memory })

/-- Method (uc *argon2) Configure: split the parameter string on the
separator, require at least argonNumParameters fields, parse field 1 as an
8-bit and field 2 as a 32-bit signed integer, then call configureArgon with
the uint32 conversions of the parsed values. -/
def Configure (uc : Argon2) (parameters : List Char) (separator : Char)
    (hashSize : Nat) : Outcome Argon2 :=
  let pars := parameters.splitOn separator
  if pars.length < argonNumParameters then .error .badParameters
  else
    match goParseInt (pars.getD 1 []) 8 with
    | none => .error .badParameters
    | some passes =>
        match goParseInt (pars.getD 2 []) 32 with
        | none => .error .badParameters
        | some memory =>
            (configureArgon uc (pars.getD 0 []) hashSize
              (toUint32 passes) (toUint32 memory)).2

/-- Method (uc *argon2) GetID: the constant hashID. -/
def argon2GetID (_ : Argon2) : List Char := hashID

/-- Method (uc *argon2) GetDefaultHashSize: the constant default. -/
def argon2GetDefaultHashSize (_ : Argon2) : Nat := argonDefaultHashSize

/-- HMAC (crypto/hmac) over the abstract SHA-256, block size 64: a key longer
than the block is first digested, the key is zero-padded to the block size,
and the digest of (ipad-masked key ++ message) is digested again under the
opad-masked key. -/
def hmacSha256 (P : Prims) (key msg : List Nat) : List Nat :=
  let k0 := if 64 < key.length then P.sha256 key else key
  let kp := k0 ++ List.replicate (64 - k0.length) 0
  P.sha256 (kp.map (fun b => b ^^^ 92) ++ P.sha256 (kp.map (fun b => b ^^^ 54) ++ msg))

/-- Function hmacKey from hash.go: HMAC-SHA256 keyed by the bytes of the
string argument with the byte-slice argument as the message.  crypto/hmac's
Write never returns an error, so the function's error path is dead and it is
modelled as total. -/
def hmacKey (P : Prims) (params : List Char) (key : List Nat) : List Nat :=
  hmacSha256 P (strBytes params) key

/-- Function GenerateRandomBytes from hash.go over an abstract random source
R: nil is returned when the source errors or supplies fewer bytes than
requested. -/
def GenerateRandomBytes (R : Nat → Option (List Nat)) (length : Nat) :
    Option (List Nat) :=
  match R length with
  | none => none
  | some b => if b.length = length then some b else none

/-- Function Hash from hash.go.  A nil result from GenerateRandomBytes is a
nil byte slice, which slicing and appending treat exactly like an empty one,
hence the getD [].  A missing registry entry would be a nil interface whose
method call panics.  The local named prefix in the Go source is called pre
here. -/
def Hash (P : Prims) (R : Nat → Option (List Nat)) (input : List Nat) :
    Outcome (List Char) :=
  let hashImpl := DefaultAlgo
  match HashImplementations hashImpl with
  | none => .panic
  | some hasher =>
      let salt0 := (GenerateRandomBytes R SaltSize).getD []
      match argon2Hash P hasher input salt0 with
      | .error e => .error e
      | .panic => .panic
      | .ok (params, hsh) =>
          let hashSize := hsh.length % 256
          let salt := hashSize :: salt0
          let encodedSalt := b64EncodeChunks salt
          let pre := '$' :: (hashImpl ++ '$' :: (params ++ '$' :: (encodedSalt ++ ['$'])))
          let hmacHash := hmacKey P pre hsh
          let encodedHash := b64EncodeChunks hmacHash
          .ok (pre ++ encodedHash)

/-- The quintuple parseHash returns on success. -/
structure ParsedHash where
  impl : Argon2
  params : List Char
  salt : List Nat
  hashSize : Nat
  key : List Char
  deriving DecidableEq, Repr

/-- Function parseHash from hash.go: split on "$", require at least
MinHashParts fields, look field 1 up in the registry, base64-decode field 3,
then read salt[0] — an out-of-range panic when the decoded blob is empty —
and return the implementation, field 2, the remaining blob bytes, the length
byte and field 4. -/
def parseHash (hash : List Char) : Outcome ParsedHash :=
  let parts := hash.splitOn Separator
  if parts.length < MinHashParts then .error .badFormat
  else
    match HashImplementations (parts.getD 1 []) with
    | none => .error .unknownImpl
    | some hashImpl =>
        match b64DecodeChunks (parts.getD 3 []) with
        | none => .error .badFormat
        | some saltBlob =>
            match saltBlob with
            | [] => .panic
            | hs :: rest =>
                .ok { impl := hashImpl, params := parts.getD 2 [],
                      salt := rest, hashSize := hs, key := parts.getD 4 [] }

/-- Function VerifyHash from hash.go: parse, reconfigure with field 2 and
the decoded length, derive a candidate key, recompute the HMAC keyed by the
record minus its final len(key) characters, base64-decode the stored tag
(whose decode error propagates as the raw base64 error), and compare with
hmac.Equal. -/
def VerifyHash (P : Prims) (hash : List Char) (input : List Nat) : Outcome Bool :=
  match parseHash hash with
  | .error e => .error e
  | .panic => .panic
  | .ok pr =>
      match Configure pr.impl pr.params ParameterSeparator pr.hashSize with
      | .error e => .error e
      | .panic => .panic
      | .ok hashImpl2 =>
          match argon2Hash P hashImpl2 input pr.salt with
          | .error e => .error e
          | .panic => .panic
          | .ok (_, otherKey) =>
              let hashed := hmacKey P (hash.take (hash.length - pr.key.length)) otherKey
              match b64DecodeChunks pr.key with
              | none => .error .corruptInput
              | some baseMac => .ok (baseMac == hashed)

/-- Function NeedsRehash from hash.go: parse, then return the conjunction of
GetID differing from DefaultAlgo, the salt being shorter than SaltSize, and
the length byte being below the implementation's default hash size. -/
def NeedsRehash (hash : List Char) : Outcome Bool :=
  match parseHash hash with
  | .error e => .error e
  | .panic => .panic
  | .ok pr =>
      .ok (!(argon2GetID pr.impl == DefaultAlgo) &&
           decide (pr.salt.length < SaltSize) &&
           decide (pr.hashSize < argon2GetDefaultHashSize pr.impl))

/-- A concrete primitives instance used only to witness satisfiability of
hypotheses: a length-respecting stand-in digest and key derivations. -/
def testPrims : Prims :=
  { sha256 := fun l => List.replicate 32 (l.length % 256)
    argonKey := fun p s t m th len => List.replicate len ((p.length + s.length + t + m + th) % 256)
    argonIDKey := fun p s t m th len => List.replicate len ((p.length + s.length + t + m + th + 1) % 256)
    numCPU := 4 }

/-- A concrete random source that always supplies the requested bytes. -/
def testRand (n : Nat) : Option (List Nat) := some (List.replicate n 1)

theorem testPrims_sha256_lt : ∀ l, ∀ b ∈ testPrims.sha256 l, b < 256 := by
  intro l b hb
  have := List.eq_of_mem_replicate hb
  omega

/-- A list of length five is an explicit five-element list. -/
theorem length_eq_five_explode {α : Type} (l : List α) (h : l.length = 5) :
    ∃ a b c d e, l = [a, b, c, d, e] := by
  match l, h with
  | [a, b, c, d, e], _ => exact ⟨a, b, c, d, e, rfl⟩

theorem intercalate5 (a b c d e : List Char) :
    List.intercalate ['$'] [a, b, c, d, e] =
      a ++ '$' :: (b ++ '$' :: (c ++ '$' :: (d ++ '$' :: e))) := by
  simp [List.intercalate]

/-- Splitting an assembled five-field record on the separator recovers the
fields, provided none of them contains the separator. -/
theorem splitOn_record (a b c d : List Char)
    (ha : '$' ∉ a) (hb : '$' ∉ b) (hc : '$' ∉ c) (hd : '$' ∉ d) :
    ('$' :: (a ++ '$' :: (b ++ '$' :: (c ++ '$' :: d)))).splitOn '$' = [[], a, b, c, d] := by
  have h := List.splitOn_intercalate [[], a, b, c, d] '$' ?_ ?_
  · rwa [intercalate5, List.nil_append] at h
  · intro x hx
    simp only [List.mem_cons, List.not_mem_nil, or_false] at hx
    rcases hx with rfl | rfl | rfl | rfl | rfl
    · simp
    · exact ha
    · exact hb
    · exact hc
    · exact hd
  · simp

theorem take_sub_suffix {α : Type} (l1 l2 : List α) :
    (l1 ++ l2).take ((l1 ++ l2).length - l2.length) = l1 := by
  have h : (l1 ++ l2).length - l2.length = l1.length := by
    simp [List.length_append]
  rw [h, List.take_left]

/-- Evaluation of Hash: the registry lookup, mode dispatch and parameter
encoding are concrete, so the whole body reduces to the assembled record over
the abstract salt and derived key. -/
theorem Hash_unfold (P : Prims) (R : Nat → Option (List Nat)) (input : List Nat) :
    Hash P R input =
      (let salt0 := (GenerateRandomBytes R SaltSize).getD []
       let dk := P.argonIDKey input salt0 argonDefaultMemoryPasses
         argonDefaultMemorySize (argonThreads P) argonDefaultHashSize
       let pre := '$' :: (DefaultAlgo ++ '$' :: (encodedString defaultArgon2 ++ '$' ::
         (b64EncodeChunks (dk.length % 256 :: salt0) ++ ['$'])))
       .ok (pre ++ b64EncodeChunks (hmacKey P pre dk))) := rfl

/-- Claim C9: for every receiver and argument tuple, configureArgon leaves
the receiver unchanged (Go copies it with nc := *uc) and, on success, returns
a configuration determined entirely by the arguments — every field of the
result is overwritten, so it is a new, independent value. -/
theorem claim9_configureArgon_frame (uc : Argon2) (mode : List Char)
    (hashSize passes memory : Nat) (nc : Argon2)
    (h : (configureArgon uc mode hashSize passes memory).2 = .ok nc) :
    (configureArgon uc mode hashSize passes memory).1 = uc ∧
    nc = { MemoryPasses := passes, MemorySize := memory,
           Mode := mode, HashSize := hashSize } := by
  constructor
  · unfold configureArgon
    split <;> rfl
  · unfold configureArgon at h
    split at h
    · exact Outcome.noConfusion h
    · cases h
      rfl

theorem claim9_witness :
    (configureArgon defaultArgon2 ("i".toList) 1 2 3).2 =
        .ok { MemoryPasses := 2, MemorySize := 3, Mode := "i".toList, HashSize := 1 } ∧
    ((configureArgon defaultArgon2 ("i".toList) 1 2 3).1 = defaultArgon2 ∧
     ({ MemoryPasses := 2, MemorySize := 3, Mode := "i".toList, HashSize := 1 } : Argon2) =
       { MemoryPasses := 2, MemorySize := 3, Mode := "i".toList, HashSize := 1 }) :=
  ⟨by decide, claim9_configureArgon_frame _ _ _ _ _ _ (by decide)⟩

/-- Claim C5 counterexample: the parameter string "i:-1:65536" has a
non-positive (negative) passes field, yet Configure succeeds — the parsed
int8 value -1 wraps under Go's uint32 conversion to 4294967295, which passes
the positivity check.  The claim "fails whenever passes is non-positive" is
therefore false as stated. -/
theorem claim5_counterexample :
    Configure defaultArgon2 ("i:-1:65536".toList) ':' 32 =
      .ok { MemoryPasses := 4294967295, MemorySize := 65536,
            Mode := "i".toList, HashSize := 32 } := by decide

/-- Claim C5 amended: Configure fails with bad parameters when the string
has fewer than 3 fields, when the passes field fails 8-bit signed parsing or
the memory field fails 32-bit signed parsing, when the mode is unrecognized,
or when the hash size, the uint32-converted passes, or the uint32-converted
memory is zero (negative parsed values wrap to large nonzero uint32 values
and are accepted); in particular mode "x", passes=0, memory=0 and hashSize=0
are each rejected with bad parameters. -/
theorem claim5_amended :
    (∀ uc ps sep hs, ((ps : List Char).splitOn sep).length < argonNumParameters →
        Configure uc ps sep hs = .error .badParameters) ∧
    (∀ uc ps sep hs, goParseInt ((ps.splitOn sep).getD 1 []) 8 = none →
        Configure uc ps sep hs = .error .badParameters) ∧
    (∀ uc ps sep hs, goParseInt ((ps.splitOn sep).getD 2 []) 32 = none →
        Configure uc ps sep hs = .error .badParameters) ∧
    (∀ uc mode hs p m, (inStrArray mode argonModi = false ∨ hs = 0 ∨ p = 0 ∨ m = 0) →
        (configureArgon uc mode hs p m).2 = .error .badParameters) ∧
    (Configure defaultArgon2 ("x:4:65536".toList) ':' 32 = .error .badParameters) ∧
    (Configure defaultArgon2 ("id:0:65536".toList) ':' 32 = .error .badParameters) ∧
    (Configure defaultArgon2 ("id:4:0".toList) ':' 32 = .error .badParameters) ∧
    (Configure defaultArgon2 ("id:4:65536".toList) ':' 0 = .error .badParameters) := by
  refine ⟨?_, ?_, ?_, ?_, by decide, by decide, by decide, by decide⟩
  · intro uc ps sep hs h
    unfold Configure
    rw [if_pos h]
  · intro uc ps sep hs h
    unfold Configure
    by_cases hl : (ps.splitOn sep).length < argonNumParameters
    · rw [if_pos hl]
    · rw [if_neg hl, h]
  · intro uc ps sep hs h
    unfold Configure
    by_cases hl : (ps.splitOn sep).length < argonNumParameters
    · rw [if_pos hl]
    · rw [if_neg hl]
      cases h1 : goParseInt ((ps.splitOn sep).getD 1 []) 8 with
      | none => rfl
      | some passes => rw [h]
  · intro uc mode hs p m h
    unfold configureArgon
    have hcond : (!inStrArray mode argonModi || hs == 0 || p == 0 || m == 0) = true := by
      rcases h with h | h | h | h <;> simp [h]
    rw [if_pos hcond]

theorem claim5_witness :
    (("x".toList).splitOn ':').length < argonNumParameters ∧
    Configure defaultArgon2 ("x".toList) ':' 32 = .error .badParameters :=
  ⟨by decide, claim5_amended.1 defaultArgon2 ("x".toList) ':' 32 (by decide)⟩

/-- Claim C3 counterexample: the record has a malformed parameter field "x"
(Configure on it with the decoded length 0 fails with bad parameters), yet
NeedsRehash returns the boolean false with no error — it never reconfigures
the algorithm. -/
theorem claim3_counterexample :
    NeedsRehash ("$argon2$x$AAA=$t".toList) = .ok false ∧
    Configure defaultArgon2 ("x".toList) ParameterSeparator 0 =
      .error .badParameters := by decide

/-- Claim C3 amended: NeedsRehash performs only the parsing steps (1–3 of
VerifyHash: split, registry lookup, salt-field decode); it never calls
Configure, so whenever parsing succeeds it returns a boolean computed from
the parsed record, even if reconfiguring with field 2 and the decoded length
would fail with bad parameters. -/
theorem claim3_amended (r : List Char) (pr : ParsedHash) (e : HashErr)
    (hp : parseHash r = .ok pr)
    (_hc : Configure pr.impl pr.params ParameterSeparator pr.hashSize = .error e) :
    NeedsRehash r =
      .ok (!(argon2GetID pr.impl == DefaultAlgo) &&
           decide (pr.salt.length < SaltSize) &&
           decide (pr.hashSize < argon2GetDefaultHashSize pr.impl)) := by
  unfold NeedsRehash
  rw [hp]

theorem claim3_witness :
    parseHash ("$argon2$x$AAA=$t".toList) =
      .ok { impl := defaultArgon2, params := "x".toList, salt := [0],
            hashSize := 0, key := "t".toList } ∧
    Configure defaultArgon2 ("x".toList) ParameterSeparator 0 =
      .error .badParameters ∧
    NeedsRehash ("$argon2$x$AAA=$t".toList) =
      .ok (!(argon2GetID defaultArgon2 == DefaultAlgo) &&
           decide (([0] : List Nat).length < SaltSize) &&
           decide (0 < argon2GetDefaultHashSize defaultArgon2)) :=
  ⟨by decide, by decide,
    claim3_amended ("$argon2$x$AAA=$t".toList)
      { impl := defaultArgon2, params := "x".toList, salt := [0],
        hashSize := 0, key := "t".toList }
      .badParameters (by decide) (by decide)⟩

/-- Claim C10: a record whose fourth field decodes to the empty byte
sequence drives parseHash into salt[0] on an empty slice — an out-of-range
access — and VerifyHash and NeedsRehash inherit the panic instead of
reaching a bad-format error. -/
theorem claim10_empty_salt_blob_panics (r : List Char) (impl : Argon2)
    (P : Prims) (input : List Nat)
    (h5 : ¬ (r.splitOn Separator).length < MinHashParts)
    (himpl : HashImplementations ((r.splitOn Separator).getD 1 []) = some impl)
    (hempty : b64DecodeChunks ((r.splitOn Separator).getD 3 []) = some []) :
    parseHash r = .panic ∧ VerifyHash P r input = .panic ∧
    NeedsRehash r = .panic := by
  have hp : parseHash r = .panic := by
    unfold parseHash
    rw [if_neg h5, himpl, hempty]
  refine ⟨hp, ?_, ?_⟩
  · unfold VerifyHash
    rw [hp]
  · unfold NeedsRehash
    rw [hp]

theorem claim10_witness :
    (¬ (("$argon2$x$$t".toList).splitOn Separator).length < MinHashParts) ∧
    HashImplementations ((("$argon2$x$$t".toList).splitOn Separator).getD 1 []) =
      some defaultArgon2 ∧
    b64DecodeChunks ((("$argon2$x$$t".toList).splitOn Separator).getD 3 []) =
      some [] ∧
    (parseHash ("$argon2$x$$t".toList) = .panic ∧
     VerifyHash testPrims ("$argon2$x$$t".toList) [] = .panic ∧
     NeedsRehash ("$argon2$x$$t".toList) = .panic) :=
  ⟨by decide, by decide, by decide,
    claim10_empty_salt_blob_panics ("$argon2$x$$t".toList) defaultArgon2
      testPrims [] (by decide) (by decide) (by decide)⟩

/-- Claim C2: whenever NeedsRehash returns a boolean, that boolean can be
true only if the record's GetID differs from DefaultAlgo, its salt is
shorter than SaltSize and its length byte is below the default hash size;
and since the only registered implementation's GetID is exactly DefaultAlgo,
the conjunction never holds, so every parseable record — in particular every
record on the default algorithm — yields false. -/
theorem claim2_needsRehash_policy (r : List Char) (b : Bool)
    (h : NeedsRehash r = .ok b) :
    (b = true → ∃ pr, parseHash r = .ok pr ∧
        argon2GetID pr.impl ≠ DefaultAlgo ∧
        pr.salt.length < SaltSize ∧
        pr.hashSize < argon2GetDefaultHashSize pr.impl) ∧
    b = false := by
  unfold NeedsRehash at h
  cases hp : parseHash r with
  | error e => rw [hp] at h; exact Outcome.noConfusion h
  | panic => rw [hp] at h; exact Outcome.noConfusion h
  | ok pr =>
      rw [hp] at h
      have hid : (!(argon2GetID pr.impl == DefaultAlgo)) = false := rfl
      injection h with hb
      rw [hid, Bool.false_and, Bool.false_and] at hb
      refine ⟨?_, hb.symm⟩
      intro ht
      rw [← hb] at ht
      exact Bool.noConfusion ht

theorem claim2_witness :
    NeedsRehash ("$argon2$x$AAA=$t".toList) = .ok false ∧
    ((false = true → ∃ pr, parseHash ("$argon2$x$AAA=$t".toList) = .ok pr ∧
        argon2GetID pr.impl ≠ DefaultAlgo ∧
        pr.salt.length < SaltSize ∧
        pr.hashSize < argon2GetDefaultHashSize pr.impl) ∧
     false = false) :=
  ⟨by decide, claim2_needsRehash_policy ("$argon2$x$AAA=$t".toList) false (by decide)⟩

/-- Claim C4 (the claim is right, the code is wrong): when the secure random
source cannot supply the requested SaltSize bytes, GenerateRandomBytes
signals this by returning nil, but Hash ignores the nil, treats it as an
empty salt and succeeds, returning a record derived with no salt at all —
it does not fail with a random-source error. -/
theorem claim4_rng_failure_ignored (P : Prims) (R : Nat → Option (List Nat))
    (input : List Nat) (hfail : R SaltSize = none) :
    GenerateRandomBytes R SaltSize = none ∧
    Hash P R input =
      (let dk := P.argonIDKey input [] argonDefaultMemoryPasses
         argonDefaultMemorySize (argonThreads P) argonDefaultHashSize
       let pre := '$' :: (DefaultAlgo ++ '$' :: (encodedString defaultArgon2 ++ '$' ::
         (b64EncodeChunks [dk.length % 256] ++ ['$'])))
       .ok (pre ++ b64EncodeChunks (hmacKey P pre dk))) := by
  have hg : GenerateRandomBytes R SaltSize = none := by
    unfold GenerateRandomBytes
    rw [hfail]
  refine ⟨hg, ?_⟩
  rw [Hash_unfold, hg]
  rfl

theorem claim4_witness :
    (fun _ => none : Nat → Option (List Nat)) SaltSize = none ∧
    GenerateRandomBytes (fun _ => none) SaltSize = none ∧
    Hash testPrims (fun _ => none) [] =
      .ok ((Hash testPrims (fun _ => none) []).getOk []) := by
  have h := claim4_rng_failure_ignored testPrims (fun _ => none) [] rfl
  exact ⟨rfl, h.1, by rw [h.2]; rfl⟩

/-- Claim C8: VerifyHash returns a boolean exactly when parsing, the
reconfiguration, the key derivation and the tag decode all succeed, and the
boolean is the constant-time equality of the stored tag with the recomputed
HMAC; in particular (false, no error) occurs exactly when every structural
step succeeds but the tags differ, and every structural failure is returned
as an error or panic, never as a boolean. -/
theorem claim8_verify_characterization (P : Prims) (r : List Char)
    (input : List Nat) (b : Bool) :
    VerifyHash P r input = .ok b ↔
      ∃ pr nc p2 dk tag,
        parseHash r = .ok pr ∧
        Configure pr.impl pr.params ParameterSeparator pr.hashSize = .ok nc ∧
        argon2Hash P nc input pr.salt = .ok (p2, dk) ∧
        b64DecodeChunks pr.key = some tag ∧
        b = (tag == hmacKey P (r.take (r.length - pr.key.length)) dk) := by
  constructor
  · intro h
    unfold VerifyHash at h
    split at h
    · exact Outcome.noConfusion h
    · exact Outcome.noConfusion h
    · next pr hp =>
        split at h
        · exact Outcome.noConfusion h
        · exact Outcome.noConfusion h
        · next nc hc =>
            split at h
            · exact Outcome.noConfusion h
            · exact Outcome.noConfusion h
            · next p2 dk hh =>
                dsimp only at h
                split at h
                · exact Outcome.noConfusion h
                · next tag ht =>
                    injection h with hb
                    exact ⟨pr, nc, p2, dk, tag, hp, hc, hh, ht, hb.symm⟩
  · rintro ⟨pr, nc, p2, dk, tag, hp, hc, hh, ht, hb⟩
    unfold VerifyHash
    rw [hp]
    dsimp only
    rw [hc]
    dsimp only
    rw [hh]
    dsimp only
    rw [ht, hb]

/-- Definition following the claim's words, for comparison with the source:
the record substring from the start up through the dollar that terminates
field 3 (the encoded-salt field), i.e. the first
len(field0)+len(field1)+len(field2)+len(field3)+4 characters. -/
def specPrefixThroughField3 (r : List Char) : List Char :=
  let parts := r.splitOn Separator
  r.take ((parts.getD 0 []).length + (parts.getD 1 []).length +
          (parts.getD 2 []).length + (parts.getD 3 []).length + 4)

/-- On success parseHash returns field 4 as the key component. -/
theorem parseHash_ok_key (r : List Char) (pr : ParsedHash)
    (hp : parseHash r = .ok pr) :
    pr.key = (r.splitOn Separator).getD 4 [] := by
  unfold parseHash at hp
  dsimp only at hp
  split at hp
  · exact Outcome.noConfusion hp
  · split at hp
    · exact Outcome.noConfusion hp
    · split at hp
      · exact Outcome.noConfusion hp
      · split at hp
        · exact Outcome.noConfusion hp
        · injection hp with h
          rw [← h]

/-- When the record splits into exactly five fields, the string VerifyHash
keys its HMAC with — the record minus its final len(field4) characters — is
the substring up through field 3's trailing separator. -/
theorem take_key_eq_specPrefix (r : List Char)
    (h5 : (r.splitOn Separator).length = 5) :
    r.take (r.length - ((r.splitOn Separator).getD 4 []).length) =
      specPrefixThroughField3 r := by
  obtain ⟨p0, p1, p2, p3, p4, hparts⟩ := length_eq_five_explode _ h5
  have hr : r = p0 ++ '$' :: (p1 ++ '$' :: (p2 ++ '$' :: (p3 ++ '$' :: p4))) := by
    have h := List.intercalate_splitOn r '$'
    rw [show r.splitOn '$' = r.splitOn Separator from rfl, hparts, intercalate5] at h
    exact h.symm
  have hassoc : r = (p0 ++ '$' :: (p1 ++ '$' :: (p2 ++ '$' :: (p3 ++ ['$'])))) ++ p4 := by
    rw [hr]
    simp
  unfold specPrefixThroughField3
  rw [hparts]
  dsimp only [List.getD_cons_zero, List.getD_cons_succ]
  have hlen : ((p0 ++ '$' :: (p1 ++ '$' :: (p2 ++ '$' :: (p3 ++ ['$'])))) : List Char).length =
      p0.length + p1.length + p2.length + p3.length + 4 := by
    simp
    omega
  rw [hassoc, ← hlen, take_sub_suffix, List.take_left]

/-- Claim C7 counterexample: the record "$argon2$p$AAA=$t$u" is accepted by
parsing (six fields, so at least five), but the string VerifyHash keys the
HMAC with — the record minus len(field4) characters — is "$argon2$p$AAA=$t$"
and differs from the substring "$argon2$p$AAA=$" that ends with field 3's
trailing separator. -/
theorem claim7_counterexample :
    parseHash ("$argon2$p$AAA=$t$u".toList) =
      .ok { impl := defaultArgon2, params := "p".toList, salt := [0],
            hashSize := 0, key := "t".toList } ∧
    ("$argon2$p$AAA=$t$u".toList).take
        (("$argon2$p$AAA=$t$u".toList).length -
          ((("$argon2$p$AAA=$t$u".toList).splitOn Separator).getD 4 []).length) ≠
      specPrefixThroughField3 ("$argon2$p$AAA=$t$u".toList) := by
  constructor
  · decide
  · decide

/-- Evaluation of VerifyHash when every structural step succeeds. -/
theorem VerifyHash_steps (P : Prims) (r : List Char) (input : List Nat)
    (pr : ParsedHash) (nc : Argon2) (p2 : List Char) (dk tag : List Nat)
    (hp : parseHash r = .ok pr)
    (hc : Configure pr.impl pr.params ParameterSeparator pr.hashSize = .ok nc)
    (hh : argon2Hash P nc input pr.salt = .ok (p2, dk))
    (ht : b64DecodeChunks pr.key = some tag) :
    VerifyHash P r input =
      .ok (tag == hmacKey P (r.take (r.length - pr.key.length)) dk) := by
  unfold VerifyHash
  rw [hp]
  dsimp only
  rw [hc]
  dsimp only
  rw [hh]
  dsimp only
  rw [ht]

/-- Claim C7 amended: for a record that splits into exactly five fields and
passes all structural steps, VerifyHash recomputes the tag as HMAC-SHA256
keyed by the record substring up through field 3's trailing separator with
the candidate derived key as the message; with more than five fields the
HMAC key is instead the record minus its final len(field4) characters,
which extends beyond field 3. -/
theorem claim7_amended (P : Prims) (r : List Char) (input : List Nat)
    (pr : ParsedHash) (nc : Argon2) (p2 : List Char) (dk tag : List Nat)
    (h5 : (r.splitOn Separator).length = 5)
    (hp : parseHash r = .ok pr)
    (hc : Configure pr.impl pr.params ParameterSeparator pr.hashSize = .ok nc)
    (hh : argon2Hash P nc input pr.salt = .ok (p2, dk))
    (ht : b64DecodeChunks pr.key = some tag) :
    VerifyHash P r input =
      .ok (tag == hmacKey P (specPrefixThroughField3 r) dk) := by
  have h := VerifyHash_steps P r input pr nc p2 dk tag hp hc hh ht
  rw [parseHash_ok_key r pr hp, take_key_eq_specPrefix r h5] at h
  exact h

theorem claim7_witness :
    (("$argon2$id:4:65536$IA==$AA==".toList).splitOn Separator).length = 5 ∧
    parseHash ("$argon2$id:4:65536$IA==$AA==".toList) =
      .ok { impl := defaultArgon2, params := "id:4:65536".toList, salt := [],
            hashSize := 32, key := "AA==".toList } ∧
    Configure defaultArgon2 ("id:4:65536".toList) ParameterSeparator 32 =
      .ok defaultArgon2 ∧
    argon2Hash testPrims defaultArgon2 [] [] =
      .ok ("id:4:65536".toList, List.replicate 32 7) ∧
    b64DecodeChunks ("AA==".toList) = some [0] ∧
    VerifyHash testPrims ("$argon2$id:4:65536$IA==$AA==".toList) [] =
      .ok (([0] : List Nat) ==
        hmacKey testPrims
          (specPrefixThroughField3 ("$argon2$id:4:65536$IA==$AA==".toList))
          (List.replicate 32 7)) :=
  ⟨by decide, by decide, by decide, by decide, by decide,
    claim7_amended testPrims ("$argon2$id:4:65536$IA==$AA==".toList) []
      { impl := defaultArgon2, params := "id:4:65536".toList, salt := [],
        hashSize := 32, key := "AA==".toList }
      defaultArgon2 ("id:4:65536".toList) (List.replicate 32 7) [0]
      (by decide) (by decide) (by decide) (by decide) (by decide)⟩

/-- Parsing a record assembled exactly as Hash assembles it recovers the
default implementation, the parameter string, the salt, the length byte and
the encoded tag, provided the parameter string contains no separator and the
salt-blob bytes are bytes. -/
theorem parseHash_assembled (par : List Char) (hs : Nat) (rest : List Nat)
    (tag : List Nat) (hpar : '$' ∉ par) (hhs : hs < 256)
    (hrest : ∀ x ∈ rest, x < 256) :
    parseHash (('$' :: (DefaultAlgo ++ '$' :: (par ++ '$' ::
        (b64EncodeChunks (hs :: rest) ++ ['$'])))) ++ b64EncodeChunks tag) =
      .ok { impl := defaultArgon2, params := par, salt := rest,
            hashSize := hs, key := b64EncodeChunks tag } := by
  have hassoc : (('$' :: (DefaultAlgo ++ '$' :: (par ++ '$' ::
        (b64EncodeChunks (hs :: rest) ++ ['$'])))) ++ b64EncodeChunks tag) =
      '$' :: (DefaultAlgo ++ '$' :: (par ++ '$' ::
        (b64EncodeChunks (hs :: rest) ++ '$' :: b64EncodeChunks tag))) := by
    simp
  have hsplit : (('$' :: (DefaultAlgo ++ '$' :: (par ++ '$' ::
        (b64EncodeChunks (hs :: rest) ++ ['$'])))) ++
          b64EncodeChunks tag).splitOn Separator =
      [[], DefaultAlgo, par, b64EncodeChunks (hs :: rest), b64EncodeChunks tag] := by
    rw [hassoc]
    exact splitOn_record DefaultAlgo par (b64EncodeChunks (hs :: rest))
      (b64EncodeChunks tag) (by decide) hpar (b64Encode_no_dollar _)
      (b64Encode_no_dollar _)
  unfold parseHash
  dsimp only
  rw [hsplit]
  rw [if_neg (by simp [MinHashParts])]
  dsimp only [List.getD_cons_zero, List.getD_cons_succ]
  rw [show HashImplementations DefaultAlgo = some defaultArgon2 from rfl]
  rw [b64_roundtrip (hs :: rest) (by
    intro x hx
    rcases List.mem_cons.mp hx with rfl | hx
    · exact hhs
    · exact hrest x hx)]

/-- Reconfiguring the default instance with its own encoded parameter string
and its default hash size yields the default instance again. -/
theorem configure_default_roundtrip :
    Configure defaultArgon2 (encodedString defaultArgon2) ParameterSeparator
      argonDefaultHashSize = .ok defaultArgon2 := by decide

/-- Claim C1: with the default argon2 implementation registered and a random
source that supplies a SaltSize-byte salt, a successful Hash(p) yields a
record that VerifyHash accepts for the same password.  The hypotheses state
what the real primitives guarantee: SHA-256 emits bytes, and argon2's IDKey
returns exactly the requested number of bytes. -/
theorem claim1_verify_after_hash (P : Prims) (R : Nat → Option (List Nat))
    (input salt : List Nat) (r : List Char)
    (hsha : ∀ l, ∀ b ∈ P.sha256 l, b < 256)
    (hR : R SaltSize = some salt)
    (hlen : salt.length = SaltSize)
    (hbytes : ∀ b ∈ salt, b < 256)
    (hkdf : (P.argonIDKey input salt argonDefaultMemoryPasses
        argonDefaultMemorySize (argonThreads P) argonDefaultHashSize).length =
      argonDefaultHashSize)
    (hr : Hash P R input = .ok r) :
    VerifyHash P r input = .ok true := by
  have hGen : (GenerateRandomBytes R SaltSize).getD [] = salt := by
    unfold GenerateRandomBytes
    rw [hR]
    dsimp only
    rw [if_pos hlen]
    rfl
  rw [Hash_unfold] at hr
  dsimp only at hr
  rw [hGen, hkdf,
    show argonDefaultHashSize % 256 = argonDefaultHashSize from rfl] at hr
  injection hr with hrr
  subst hrr
  have hp := parseHash_assembled (encodedString defaultArgon2)
    argonDefaultHashSize salt
    (hmacKey P ('$' :: (DefaultAlgo ++ '$' :: (encodedString defaultArgon2 ++ '$' ::
      (b64EncodeChunks (argonDefaultHashSize :: salt) ++ ['$']))))
      (P.argonIDKey input salt argonDefaultMemoryPasses argonDefaultMemorySize
        (argonThreads P) argonDefaultHashSize))
    (by decide) (by decide) hbytes
  have hh : argon2Hash P defaultArgon2 input salt =
      .ok (encodedString defaultArgon2,
        P.argonIDKey input salt argonDefaultMemoryPasses argonDefaultMemorySize
          (argonThreads P) argonDefaultHashSize) := rfl
  have ht : b64DecodeChunks (b64EncodeChunks
      (hmacKey P ('$' :: (DefaultAlgo ++ '$' :: (encodedString defaultArgon2 ++ '$' ::
        (b64EncodeChunks (argonDefaultHashSize :: salt) ++ ['$']))))
        (P.argonIDKey input salt argonDefaultMemoryPasses argonDefaultMemorySize
          (argonThreads P) argonDefaultHashSize))) =
      some (hmacKey P ('$' :: (DefaultAlgo ++ '$' :: (encodedString defaultArgon2 ++ '$' ::
        (b64EncodeChunks (argonDefaultHashSize :: salt) ++ ['$']))))
        (P.argonIDKey input salt argonDefaultMemoryPasses argonDefaultMemorySize
          (argonThreads P) argonDefaultHashSize)) :=
    b64_roundtrip _ (fun b hb => hsha _ b hb)
  have hv := VerifyHash_steps P _ input _ defaultArgon2
    (encodedString defaultArgon2) _ _ hp configure_default_roundtrip hh ht
  dsimp only at hv
  rw [take_sub_suffix] at hv
  simpa using hv

theorem claim1_witness :
    testRand SaltSize = some (List.replicate 10 1) ∧
    (List.replicate 10 1 : List Nat).length = SaltSize ∧
    Hash testPrims testRand [] =
      .ok ((Hash testPrims testRand []).getOk []) ∧
    VerifyHash testPrims ((Hash testPrims testRand []).getOk []) [] = .ok true :=
  ⟨rfl, by decide, rfl,
    claim1_verify_after_hash testPrims testRand [] (List.replicate 10 1)
      ((Hash testPrims testRand []).getOk []) testPrims_sha256_lt rfl
      (by decide) (by decide) (by decide) rfl⟩

/-- Claim C6: every record a successful Hash(p) returns is prefix plus the
base64 encoding of HMAC-SHA256 whose key is the byte sequence of the prefix
"$argon2$params$encodedSalt$" (the unconventional orientation) and whose
message is the raw derived key; the encoded salt is the derived-key length
byte followed by the salt bytes. -/
theorem claim6_record_structure (P : Prims) (R : Nat → Option (List Nat))
    (input : List Nat) (r : List Char) (hr : Hash P R input = .ok r) :
    r = (let salt0 := (GenerateRandomBytes R SaltSize).getD []
         let dk := P.argonIDKey input salt0 argonDefaultMemoryPasses
           argonDefaultMemorySize (argonThreads P) argonDefaultHashSize
         let pre := '$' :: (DefaultAlgo ++ '$' :: (encodedString defaultArgon2 ++ '$' ::
           (b64EncodeChunks (dk.length % 256 :: salt0) ++ ['$'])))
         pre ++ b64EncodeChunks (hmacSha256 P (strBytes pre) dk)) := by
  rw [Hash_unfold] at hr
  injection hr with h
  exact h.symm

theorem claim6_witness :
    Hash testPrims testRand [] =
      .ok ((Hash testPrims testRand []).getOk []) ∧
    (Hash testPrims testRand []).getOk [] =
      (let salt0 := (GenerateRandomBytes testRand SaltSize).getD []
       let dk := testPrims.argonIDKey [] salt0 argonDefaultMemoryPasses
         argonDefaultMemorySize (argonThreads testPrims) argonDefaultHashSize
       let pre := '$' :: (DefaultAlgo ++ '$' :: (encodedString defaultArgon2 ++ '$' ::
         (b64EncodeChunks (dk.length % 256 :: salt0) ++ ['$'])))
       pre ++ b64EncodeChunks (hmacSha256 testPrims (strBytes pre) dk)) :=
  ⟨rfl, claim6_record_structure testPrims testRand []
    ((Hash testPrims testRand []).getOk []) rfl⟩
